import Mathlib

/-!
Verification of the CAN bus driver in `src/firmware/src/can_bus.cpp`.

The development shallowly embeds the driver's pure algorithms and state
transitions as Lean functions and proves the specified properties about them.
Machine integers are modelled as `Nat`; no operation in the embedded code can
overflow its C type for the value ranges that actually occur (this is argued
at each definition), so plain `Nat` arithmetic is faithful.
-/

namespace CanBus

/-! ## Bit timing computation (`computeTimings`, can_bus.cpp lines 112-247) -/

/-- Mirror of `struct Timings` (can_bus.cpp lines 94-100).  Fields hold the
zero-based hardware register values. -/
structure Timings where
  prescaler : Nat
  sjw : Nat
  bs1 : Nat
  bs2 : Nat
deriving DecidableEq, Repr

/-- Result of `computeTimings`: success with timings, or one of the two error
codes the function can return (`-ErrInvalidBitRate`, `-ErrLogic`). -/
inductive TimingsResult where
  | ok (t : Timings)
  | errInvalidBitRate
  | errLogic
deriving DecidableEq, Repr

/-- The `while ((prescaler_bs % (1 + bs1_bs2_sum)) != 0)` search loop of
`computeTimings` (lines 159-168): starting from `s`, decrement while the
divisor test fails, giving up once `s <= 2` still fails.  Returns the found
`bs1_bs2_sum`, or `none` where the C++ returns `-ErrInvalidBitRate`. -/
def segSumSearch (pbs : Nat) : Nat → Option Nat
  | 0 => if pbs % 1 = 0 then some 0 else none
  | s + 1 =>
    if pbs % (s + 2) = 0 then some (s + 1)
    else if s + 1 ≤ 2 then none
    else segSumSearch pbs s

/-- The `BsPair` split of `bs1_bs2_sum` into `(bs1, bs2)` (lines 194-222):
first attempt rounds to nearest, and if its sample point exceeds 900 permill
the second attempt rounds toward zero. -/
def bsSplit (S : Nat) : Nat × Nat :=
  let bs1a := (7 * S - 1 + 4) / 8
  let bs2a := S - bs1a
  if 900 < 1000 * (1 + bs1a) / (1 + bs1a + bs2a) then
    let bs1b := (7 * S - 1) / 8
    (bs1b, S - bs1b)
  else
    (bs1a, bs2a)

/-- Mirror of `computeTimings` (lines 112-247), with the peripheral clock
`STM32_PCLK1` generalized to the parameter `pclk`.  All intermediate values
fit their C types: `pbs ≤ pclk < 2^32`, `bs1_bs2_sum ≤ 16`,
`prescaler * (1 + bs1 + bs2) = pbs` whenever it is computed, so `Nat`
arithmetic coincides with the uint32/uint8 arithmetic of the source. -/
def computeTimings (pclk target : Nat) : TimingsResult :=
  if target < 1 then .errInvalidBitRate
  else
    let maxQuantaPerBit : Nat := if 1000000 ≤ target then 10 else 17
    let pbs := pclk / target
    match segSumSearch pbs (maxQuantaPerBit - 1) with
    | none => .errInvalidBitRate
    | some S =>
      let prescaler := pbs / (1 + S)
      if prescaler < 1 ∨ 1024 < prescaler then .errInvalidBitRate
      else
        let bs := bsSplit S
        if target ≠ pclk / (prescaler * (1 + bs.1 + bs.2))
            ∨ ¬(1 ≤ bs.1 ∧ bs.1 ≤ 16 ∧ 1 ≤ bs.2 ∧ bs.2 ≤ 8) then
          .errLogic
        else
          .ok ⟨prescaler - 1, 0, bs.1 - 1, bs.2 - 1⟩

theorem segSumSearch_sound (pbs : Nat) :
    ∀ s S', segSumSearch pbs s = some S' → pbs % (1 + S') = 0 ∧ S' ≤ s := by
  intro s
  induction s with
  | zero =>
    intro S' h
    simp only [segSumSearch, Nat.mod_one, if_pos] at h
    cases h
    simp [Nat.mod_one]
  | succ s ih =>
    intro S' h
    by_cases hdiv : pbs % (s + 2) = 0
    · simp only [segSumSearch, hdiv, if_pos] at h
      cases h
      refine ⟨?_, Nat.le_refl _⟩
      rw [show 1 + (s + 1) = s + 2 by omega]
      exact hdiv
    · by_cases hle : s + 1 ≤ 2
      · simp [segSumSearch, hdiv, hle] at h
      · simp only [segSumSearch, hdiv, hle, if_neg, if_false] at h
        obtain ⟨h1, h2⟩ := ih S' h
        exact ⟨h1, Nat.le_succ_of_le h2⟩

theorem segSumSearch_ge_two (pbs : Nat) :
    ∀ s S', 2 ≤ s → segSumSearch pbs s = some S' → 2 ≤ S' := by
  intro s
  induction s with
  | zero => intro S' h; omega
  | succ s ih =>
    intro S' hs h
    by_cases hdiv : pbs % (s + 2) = 0
    · simp only [segSumSearch, hdiv, if_pos] at h
      cases h; omega
    · by_cases hle : s + 1 ≤ 2
      · simp [segSumSearch, hdiv, hle] at h
      · simp only [segSumSearch, hdiv, hle, if_neg, if_false] at h
        exact ih S' (by omega) h

theorem segSumSearch_maximal (pbs : Nat) :
    ∀ s S, S ≤ s → 2 ≤ S → pbs % (1 + S) = 0 →
      ∃ S', segSumSearch pbs s = some S' ∧ S ≤ S' := by
  intro s
  induction s with
  | zero => intro S hS h2 _; omega
  | succ s ih =>
    intro S hS h2 hdvd
    by_cases hdiv : pbs % (s + 2) = 0
    · exact ⟨s + 1, by simp [segSumSearch, hdiv], hS⟩
    · have hSne : S ≠ s + 1 := by
        intro hEq
        apply hdiv
        rw [show s + 2 = 1 + (s + 1) by omega, ← hEq]
        exact hdvd
      have hS' : S ≤ s := by omega
      have hs3 : ¬ (s + 1 ≤ 2) := by omega
      obtain ⟨S', hfind, hle⟩ := ih S hS' h2 hdvd
      exact ⟨S', by simp [segSumSearch, hdiv, hs3, hfind], hle⟩

/-- Validity of the `BsPair` split for every reachable segment sum. -/
theorem bsSplit_props (S : Nat) (h2 : 2 ≤ S) (h16 : S ≤ 16) :
    (bsSplit S).1 + (bsSplit S).2 = S ∧
    1 ≤ (bsSplit S).1 ∧ (bsSplit S).1 ≤ 16 ∧
    1 ≤ (bsSplit S).2 ∧ (bsSplit S).2 ≤ 8 ∧
    10 * (1 + (bsSplit S).1) ≤ 9 * (1 + S) := by
  interval_cases S <;> decide

/-- C1: for every `(targetBitrate, peripheralClock)` pair admitting an
exact-division solution (some prescaler `p ∈ [1,1024]` and segment sum
`S ∈ [2, maxQuantaPerBit-1]` with `pclk = target · p · (1+S)`),
`computeTimings` succeeds, and — reading the stored fields as one-based
values — the reconstructed bitrate `pclk / (prescaler · (1 + bs1 + bs2))`
equals the target exactly, `bs1 ∈ [1,16]`, `bs2 ∈ [1,8]`, the sample point
`(1+bs1)/(1+bs1+bs2)` is at most 90 %, and `sjw` is stored as `0`. -/
theorem computeTimings_exact_division_correct
    (pclk target p S : Nat)
    (htarget : 1 ≤ target) (hp1 : 1 ≤ p) (hp2 : p ≤ 1024)
    (hS2 : 2 ≤ S) (hSmax : S ≤ (if 1000000 ≤ target then 10 else 17) - 1)
    (hclk : pclk = target * (p * (1 + S))) :
    ∃ t : Timings,
      computeTimings pclk target = TimingsResult.ok t ∧
      pclk / ((t.prescaler + 1) * (1 + (t.bs1 + 1) + (t.bs2 + 1))) = target ∧
      1 ≤ t.bs1 + 1 ∧ t.bs1 + 1 ≤ 16 ∧
      1 ≤ t.bs2 + 1 ∧ t.bs2 + 1 ≤ 8 ∧
      10 * (1 + (t.bs1 + 1)) ≤ 9 * (1 + (t.bs1 + 1) + (t.bs2 + 1)) ∧
      t.sjw = 0 ∧ 1 ≤ t.prescaler + 1 ∧ t.prescaler + 1 ≤ 1024 := by
  have htarget0 : 0 < target := htarget
  have hpbs : pclk / target = p * (1 + S) := by
    rw [hclk]; exact Nat.mul_div_cancel_left _ htarget0
  have hmaxQ1 : 2 ≤ (if 1000000 ≤ target then 10 else 17) - 1 := by
    split <;> omega
  have hmaxQ2 : (if 1000000 ≤ target then 10 else 17) - 1 ≤ 16 := by
    split <;> omega
  have hdvd : (p * (1 + S)) % (1 + S) = 0 := Nat.mul_mod_left _ _
  obtain ⟨S', hfind, hSS'⟩ :=
    segSumSearch_maximal (p * (1 + S)) ((if 1000000 ≤ target then 10 else 17) - 1)
      S hSmax hS2 hdvd
  obtain ⟨hdvd', hS'le⟩ := segSumSearch_sound (p * (1 + S)) _ _ hfind
  have hS'2 : 2 ≤ S' := segSumSearch_ge_two (p * (1 + S)) _ _ hmaxQ1 hfind
  have hS'16 : S' ≤ 16 := le_trans hS'le hmaxQ2
  have hdvd'' : (1 + S') ∣ p * (1 + S) := Nat.dvd_of_mod_eq_zero hdvd'
  set prescaler := p * (1 + S) / (1 + S') with hpres
  have hps_mul : prescaler * (1 + S') = p * (1 + S) := Nat.div_mul_cancel hdvd''
  have hpbs_pos : 0 < p * (1 + S) := by positivity
  have hp_ge1 : 1 ≤ prescaler := by
    rcases Nat.eq_zero_or_pos prescaler with h0 | h1
    · rw [h0, Nat.zero_mul] at hps_mul; omega
    · exact h1
  have hp_le : prescaler ≤ 1024 := by
    have h1 : prescaler ≤ p * (1 + S) / (1 + S) :=
      Nat.div_le_div_left (by omega) (by omega)
    have h2 : p * (1 + S) / (1 + S) = p := Nat.mul_div_cancel p (by omega)
    omega
  obtain ⟨hsum, hb1a, hb1b, hb2a, hb2b, hsp⟩ := bsSplit_props S' hS'2 hS'16
  have hrecon : pclk / (prescaler * (1 + (bsSplit S').1 + (bsSplit S').2)) = target := by
    have h1 : 1 + (bsSplit S').1 + (bsSplit S').2 = 1 + S' := by omega
    rw [h1, hps_mul, hclk]
    exact Nat.mul_div_cancel _ hpbs_pos
  have hcond : ¬ (target ≠ pclk / (prescaler * (1 + (bsSplit S').1 + (bsSplit S').2))
      ∨ ¬(1 ≤ (bsSplit S').1 ∧ (bsSplit S').1 ≤ 16 ∧
          1 ≤ (bsSplit S').2 ∧ (bsSplit S').2 ≤ 8)) := by
    push_neg
    exact ⟨hrecon.symm, hb1a, hb1b, hb2a, hb2b⟩
  refine ⟨⟨prescaler - 1, 0, (bsSplit S').1 - 1, (bsSplit S').2 - 1⟩, ?_, ?_⟩
  · simp only [computeTimings]
    rw [if_neg (by omega : ¬ target < 1)]
    simp only [hpbs, hfind]
    rw [if_neg (by omega : ¬ (prescaler < 1 ∨ 1024 < prescaler)), if_neg hcond]
  · dsimp only
    have e1 : prescaler - 1 + 1 = prescaler := by omega
    have e2 : (bsSplit S').1 - 1 + 1 = (bsSplit S').1 := by omega
    have e3 : (bsSplit S').2 - 1 + 1 = (bsSplit S').2 := by omega
    rw [e1, e2, e3]
    exact ⟨hrecon, by omega, by omega, by omega, by omega, by omega, rfl, by omega, by omega⟩

/-- Witness for C1 at the concrete firmware configuration: 36 MHz peripheral
clock and 1 Mbit/s target, which factors as `1000000 · (4 · 9)`. -/
theorem computeTimings_exact_division_correct_witness :
    ∃ t : Timings,
      computeTimings 36000000 1000000 = TimingsResult.ok t ∧
      36000000 / ((t.prescaler + 1) * (1 + (t.bs1 + 1) + (t.bs2 + 1))) = 1000000 ∧
      1 ≤ t.bs1 + 1 ∧ t.bs1 + 1 ≤ 16 ∧
      1 ≤ t.bs2 + 1 ∧ t.bs2 + 1 ≤ 8 ∧
      10 * (1 + (t.bs1 + 1)) ≤ 9 * (1 + (t.bs1 + 1) + (t.bs2 + 1)) ∧
      t.sjw = 0 ∧ 1 ≤ t.prescaler + 1 ∧ t.prescaler + 1 ≤ 1024 :=
  computeTimings_exact_division_correct 36000000 1000000 4 8
    (by decide) (by decide) (by decide) (by decide) (by decide) (by decide)

/-- C2: the final-validation failure branch of `computeTimings` (lines
233-237, `assert(0); return -ErrLogic;`) IS reachable, contrary to the claim:
with a 36 MHz peripheral clock and a requested bitrate of 7000 bit/s the
divisor search succeeds (segment sum 5, prescaler 857), yet the reconstructed
bitrate is `36000000 / (857·6) = 7001 ≠ 7000`, so the function returns the
internal-logic error after tripping its own assertion. -/
theorem computeTimings_errLogic_reachable :
    computeTimings 36000000 7000 = TimingsResult.errLogic := by decide

/-! ## CAN frames and priority arbitration (`Frame::priorityHigherThan`,
can_bus.cpp lines 596-634) -/

/-- Modelled from the spec: `Frame` is declared in `can_bus.hpp`, which is not
part of the sources at hand.  Per the spec's data model, a frame carries an
identifier (29-bit extended or 11-bit standard, tagged by an extended-frame
flag), a remote-transmission-request flag, an error-frame marker, a data
length code and up to 8 payload bytes; the flags live in identifier bits
outside the 29-bit mask, as the shifts and masks of `priorityHigherThan` and
the ISR decoder require. -/
structure Frame where
  id : Nat
  dlc : Nat
  data : List Nat
deriving DecidableEq, Repr

namespace Frame

/-- Modelled from the spec: 11-bit standard-identifier mask (`MaskStdID`). -/
def MaskStdID : Nat := 0x7FF

/-- Modelled from the spec: 29-bit extended-identifier mask (`MaskExtID`). -/
def MaskExtID : Nat := 0x1FFFFFFF

/-- Modelled from the spec: extended-frame-format flag bit (`FlagEFF`). -/
def FlagEFF : Nat := 0x80000000

/-- Modelled from the spec: remote-transmission-request flag bit (`FlagRTR`). -/
def FlagRTR : Nat := 0x40000000

/-- Modelled from the spec: error-frame marker bit (`FlagERR`). -/
def FlagERR : Nat := 0x20000000

/-- Modelled from the spec: a frame is extended iff its `FlagEFF` bit is set. -/
def isExtended (f : Frame) : Bool := f.id &&& FlagEFF != 0

/-- Modelled from the spec: a frame is a remote-transmission request iff its
`FlagRTR` bit is set. -/
def isRemoteTransmissionRequest (f : Frame) : Bool := f.id &&& FlagRTR != 0

/-- Modelled from the spec: a frame is an error-frame marker iff its
`FlagERR` bit is set. -/
def isErrorFrame (f : Frame) : Bool := f.id &&& FlagERR != 0

/-- Mirror of `Frame::priorityHigherThan` (can_bus.cpp lines 596-634). -/
def priorityHigherThan (self rhs : Frame) : Bool :=
  let clean_id := self.id &&& MaskExtID
  let rhs_clean_id := rhs.id &&& MaskExtID
  let ext := self.id &&& FlagEFF != 0
  let rhs_ext := rhs.id &&& FlagEFF != 0
  if ext != rhs_ext then
    let arb11 := if ext then clean_id >>> 18 else clean_id
    let rhs_arb11 := if rhs_ext then rhs_clean_id >>> 18 else rhs_clean_id
    if arb11 != rhs_arb11 then
      decide (arb11 < rhs_arb11)
    else
      rhs_ext
  else
    let rtr := self.id &&& FlagRTR != 0
    let rhs_rtr := rhs.id &&& FlagRTR != 0
    if clean_id == rhs_clean_id && rtr != rhs_rtr then
      rhs_rtr
    else
      decide (clean_id < rhs_clean_id)

/-- The 29-bit-masked identifier used by the comparison. -/
def cleanId (f : Frame) : Nat := f.id &&& MaskExtID

/-- The 11 most significant arbitration bits: the full masked identifier for
a standard frame, the top 11 of the 29 identifier bits for an extended one. -/
def arb11 (f : Frame) : Nat := if f.isExtended then f.cleanId >>> 18 else f.cleanId

/-- The identifier masked to its format's width, as used by the claim's
notion of distinctness. -/
def maskedId (f : Frame) : Nat := if f.isExtended then f.cleanId else f.id &&& MaskStdID

/-- Numeric rendering of the extended-format flag (standard < extended). -/
def extBit (f : Frame) : Nat := if f.isExtended then 1 else 0

/-- Numeric rendering of the RTR flag (data frame < RTR frame). -/
def rtrBit (f : Frame) : Nat := if f.isRemoteTransmissionRequest then 1 else 0

/-- The strict lexicographic key order that `priorityHigherThan` implements. -/
def keyLt (a b : Frame) : Prop :=
  a.arb11 < b.arb11 ∨ (a.arb11 = b.arb11 ∧
    (a.extBit < b.extBit ∨ (a.extBit = b.extBit ∧
      (a.cleanId < b.cleanId ∨ (a.cleanId = b.cleanId ∧ a.rtrBit < b.rtrBit)))))

end Frame

theorem Frame.shiftRight_lt_of_lt {x y k : Nat} (h : x >>> k < y >>> k) : x < y := by
  simp only [Nat.shiftRight_eq_div_pow] at h
  by_contra hxy
  push_neg at hxy
  have h2 : y / 2 ^ k ≤ x / 2 ^ k := Nat.div_le_div_right hxy
  omega

theorem Frame.shiftRight_le_of_le {x y k : Nat} (h : x ≤ y) : x >>> k ≤ y >>> k := by
  simp only [Nat.shiftRight_eq_div_pow]
  exact Nat.div_le_div_right h

/-- Restatement of `priorityHigherThan` through the named accessors. -/
theorem Frame.priorityHigherThan_def (a b : Frame) :
    a.priorityHigherThan b =
      (if a.isExtended != b.isExtended then
        (if a.arb11 != b.arb11 then decide (a.arb11 < b.arb11) else b.isExtended)
      else
        (if a.cleanId == b.cleanId
            && (a.isRemoteTransmissionRequest != b.isRemoteTransmissionRequest)
          then b.isRemoteTransmissionRequest
          else decide (a.cleanId < b.cleanId))) := by
  unfold priorityHigherThan isExtended isRemoteTransmissionRequest cleanId arb11
  rfl

/-- The comparison `priorityHigherThan` coincides with the strict
lexicographic order on `(arb11, extBit, cleanId, rtrBit)`. -/
theorem Frame.priorityHigherThan_iff_keyLt (a b : Frame) :
    a.priorityHigherThan b = true ↔ Frame.keyLt a b := by
  rw [priorityHigherThan_def]
  unfold keyLt arb11 extBit rtrBit
  cases haext : a.isExtended <;> cases hbext : b.isExtended <;>
    cases hart : a.isRemoteTransmissionRequest <;>
      cases hbrt : b.isRemoteTransmissionRequest <;>
        simp [haext, hbext, hart, hbrt]
  all_goals omega

/-- Bits masked to 29 bits agreeing implies bits masked to 11 bits agree. -/
theorem Frame.mask_narrow {x y : Nat}
    (h : x &&& (2 ^ 29 - 1) = y &&& (2 ^ 29 - 1)) :
    x &&& (2 ^ 11 - 1) = y &&& (2 ^ 11 - 1) := by
  apply Nat.eq_of_testBit_eq
  intro i
  have hb := congrArg (fun n => n.testBit i) h
  simp only [Nat.testBit_and, Nat.testBit_two_pow_sub_one] at hb ⊢
  by_cases hi : i < 11
  · have h29 : i < 29 := by omega
    simp [hi, h29] at hb ⊢
    exact hb
  · simp [hi]

/-- Component facts connecting the comparison key to the claim's triple of
distinguishing attributes. -/
theorem Frame.key_component_facts (a b : Frame) :
    (a.isExtended = b.isExtended → a.cleanId = b.cleanId → a.arb11 = b.arb11) ∧
    (a.isExtended = b.isExtended ↔ a.extBit = b.extBit) ∧
    (a.isRemoteTransmissionRequest = b.isRemoteTransmissionRequest ↔
      a.rtrBit = b.rtrBit) ∧
    (a.isExtended = b.isExtended → a.cleanId = b.cleanId → a.maskedId = b.maskedId) := by
  refine ⟨?_, ?_, ?_, ?_⟩
  · intro he hc; unfold arb11; rw [he, hc]
  · unfold extBit
    cases ha : a.isExtended <;> cases hb : b.isExtended <;> simp
  · unfold rtrBit
    cases ha : a.isRemoteTransmissionRequest <;>
      cases hb : b.isRemoteTransmissionRequest <;> simp
  · intro he hc
    unfold maskedId
    rw [he, hc]
    cases hb : b.isExtended
    · simp only [Bool.false_eq_true, if_false]
      unfold cleanId MaskExtID at hc
      unfold MaskStdID
      have h29 : (0x1FFFFFFF : Nat) = 2 ^ 29 - 1 := by norm_num
      have h11 : (0x7FF : Nat) = 2 ^ 11 - 1 := by norm_num
      rw [h11]
      exact mask_narrow (by rw [← h29]; exact hc)
    · simp

/-- C3: `Frame::priorityHigherThan` is a strict total order on frames that
are distinct in `(format flag, format-masked identifier, RTR flag)`: it is
irreflexive and transitive, and for two such distinct frames exactly one
direction holds.  Moreover, when formats differ it compares the top 11
identifier bits (for an extended frame, the top 11 bits of its 29-bit id)
with lower value winning and the standard frame winning an 11-bit tie, and
when formats and masked identifiers agree the data frame outranks the RTR
frame in both argument orders. -/
theorem priorityHigherThan_strict_total_order :
    (∀ a : Frame, a.priorityHigherThan a = false) ∧
    (∀ a b c : Frame, a.priorityHigherThan b = true → b.priorityHigherThan c = true →
      a.priorityHigherThan c = true) ∧
    (∀ a b : Frame,
      ¬(a.isExtended = b.isExtended ∧ a.maskedId = b.maskedId ∧
        a.isRemoteTransmissionRequest = b.isRemoteTransmissionRequest) →
      (a.priorityHigherThan b = true ↔ ¬(b.priorityHigherThan a = true))) ∧
    (∀ a b : Frame, a.isExtended ≠ b.isExtended →
      (a.priorityHigherThan b = true ↔
        (a.arb11 < b.arb11 ∨ (a.arb11 = b.arb11 ∧ a.isExtended = false)))) ∧
    (∀ a b : Frame, a.isExtended = b.isExtended → a.cleanId = b.cleanId →
      a.isRemoteTransmissionRequest = false → b.isRemoteTransmissionRequest = true →
      a.priorityHigherThan b = true ∧ b.priorityHigherThan a = false) := by
  refine ⟨?_, ?_, ?_, ?_, ?_⟩
  · intro a
    cases hpt : a.priorityHigherThan a
    · rfl
    · exfalso
      have h := (Frame.priorityHigherThan_iff_keyLt a a).mp hpt
      unfold Frame.keyLt at h
      omega
  · intro a b c hab hbc
    rw [Frame.priorityHigherThan_iff_keyLt] at hab hbc ⊢
    unfold Frame.keyLt at hab hbc ⊢
    omega
  · intro a b hdist
    rw [Frame.priorityHigherThan_iff_keyLt, Frame.priorityHigherThan_iff_keyLt]
    obtain ⟨harb, hext_iff, hrtr_iff, hmask⟩ := Frame.key_component_facts a b
    have hd : a.extBit ≠ b.extBit ∨ a.cleanId ≠ b.cleanId ∨ a.rtrBit ≠ b.rtrBit := by
      by_contra hcon
      push_neg at hcon
      obtain ⟨h1, h2, h3⟩ := hcon
      exact hdist ⟨hext_iff.mpr h1, hmask (hext_iff.mpr h1) h2, hrtr_iff.mpr h3⟩
    have harb2 : a.extBit = b.extBit → a.cleanId = b.cleanId → a.arb11 = b.arb11 :=
      fun h1 h2 => harb (hext_iff.mpr h1) h2
    unfold Frame.keyLt
    omega
  · intro a b hne
    rw [Frame.priorityHigherThan_iff_keyLt]
    have hchar : (a.extBit ≠ b.extBit) ∧ (a.extBit < b.extBit ↔ a.isExtended = false) := by
      unfold Frame.extBit
      cases ha : a.isExtended <;> cases hb2 : b.isExtended <;>
        simp [ha, hb2] at hne ⊢
    obtain ⟨hne2, hiff⟩ := hchar
    unfold Frame.keyLt
    constructor
    · rintro (h | ⟨h1, (h2 | ⟨h2, _⟩)⟩)
      · exact Or.inl h
      · exact Or.inr ⟨h1, hiff.mp h2⟩
      · exact absurd h2 hne2
    · rintro (h | ⟨h1, h2⟩)
      · exact Or.inl h
      · exact Or.inr ⟨h1, Or.inl (hiff.mpr h2)⟩
  · intro a b he hc hra hrb
    obtain ⟨harb, hext_iff, -, -⟩ := Frame.key_component_facts a b
    have harb_eq : a.arb11 = b.arb11 := harb he hc
    have hext_eq : a.extBit = b.extBit := hext_iff.mp he
    have hrta : a.rtrBit = 0 := by simp [Frame.rtrBit, hra]
    have hrtb : b.rtrBit = 1 := by simp [Frame.rtrBit, hrb]
    constructor
    · rw [Frame.priorityHigherThan_iff_keyLt]
      unfold Frame.keyLt
      omega
    · cases hpt : b.priorityHigherThan a
      · rfl
      · exfalso
        have h := (Frame.priorityHigherThan_iff_keyLt b a).mp hpt
        unfold Frame.keyLt at h
        omega

/-- Witness for C3: a concrete data frame with standard identifier 5 beats
its RTR counterpart, and not conversely. -/
theorem priorityHigherThan_strict_total_order_witness :
    (⟨5, 0, []⟩ : Frame).priorityHigherThan ⟨5 + 0x40000000, 0, []⟩ = true ∧
    (⟨5 + 0x40000000, 0, []⟩ : Frame).priorityHigherThan ⟨5, 0, []⟩ = false :=
  priorityHigherThan_strict_total_order.2.2.2.2 ⟨5, 0, []⟩ ⟨5 + 0x40000000, 0, []⟩
    (by decide) (by decide) (by decide) (by decide)

/-! ## Receive ring buffer (`RxQueue`, can_bus.cpp lines 25-91) -/

/-- Modelled from the spec: `RxFrame` (declared in the missing `can_bus.hpp`)
is a `Frame` plus a hardware timestamp, a loopback flag and a failure flag. -/
structure RxFrame where
  frame : Frame
  loopback : Bool
  failed : Bool
  timestamp_systick : Nat
deriving DecidableEq, Repr

/-- Mirror of `RxQueue` (lines 25-91).  `Capacity` is 16; the `uint8`
indices/length and the `uint32` overflow counter are modelled as `Nat`: the
code keeps `in_`, `out_` below 16 and `len_` at most 16 by explicit wrapping
and clamping, and guards the counter increment, so no modular wraparound can
occur.  The backing array is a total function accessed only at indices
below 16. -/
structure RxQueue where
  buf : Nat → RxFrame
  in_ : Nat
  out_ : Nat
  len_ : Nat
  overflow_cnt : Nat

namespace RxQueue

/-- Mirror of `RxQueue::registerOverflow` (lines 35-41): saturating
increment of the overflow counter. -/
def registerOverflow (q : RxQueue) : RxQueue :=
  if q.overflow_cnt < 0xFFFFFFFF then
    { q with overflow_cnt := q.overflow_cnt + 1 }
  else q

/-- Mirror of `RxQueue::push` (lines 44-63): write at `in_`, advance and
wrap `in_`, bump `len_`; on overflow clamp `len_` to 16, register the
overflow and advance the read index, evicting the oldest entry. -/
def push (q : RxQueue) (f : RxFrame) : RxQueue :=
  let buf1 := Function.update q.buf q.in_ f
  let in1 := q.in_ + 1
  let in2 := if 16 ≤ in1 then 0 else in1
  let len1 := q.len_ + 1
  if 16 < len1 then
    let q1 := registerOverflow { q with buf := buf1, in_ := in2, len_ := 16 }
    let out1 := q1.out_ + 1
    { q1 with out_ := if 16 ≤ out1 then 0 else out1 }
  else
    { q with buf := buf1, in_ := in2, len_ := len1 }

/-- Mirror of `RxQueue::pop` (lines 65-78); `none` corresponds to the
`assert(0)` branch on an empty queue. -/
def pop (q : RxQueue) : Option (RxFrame × RxQueue) :=
  if 0 < q.len_ then
    let out1 := q.out_ + 1
    some (q.buf q.out_, { q with out_ := if 16 ≤ out1 then 0 else out1,
                                 len_ := q.len_ - 1 })
  else none

/-- Mirror of `RxQueue::reset` (lines 80-86): indices, length and overflow
counter are cleared; the backing array is left as is. -/
def reset (q : RxQueue) : RxQueue :=
  { q with in_ := 0, out_ := 0, len_ := 0, overflow_cnt := 0 }

/-- Mirror of `RxQueue::getLength` (line 88). -/
def getLength (q : RxQueue) : Nat := q.len_

/-- Mirror of `RxQueue::getOverflowCount` (line 90). -/
def getOverflowCount (q : RxQueue) : Nat := q.overflow_cnt

/-- Pushing a whole list of frames in order. -/
def pushList (q : RxQueue) (fs : List RxFrame) : RxQueue := fs.foldl push q

/-- Popping `n` frames in succession; fails if the queue empties early. -/
def popN : Nat → RxQueue → Option (List RxFrame × RxQueue)
  | 0, q => some ([], q)
  | n + 1, q =>
    match q.pop with
    | none => none
    | some (f, q1) =>
      match popN n q1 with
      | none => none
      | some (l, q2) => some (f :: l, q2)

/-- The structural invariant of the ring buffer: length bounded by the
capacity, both indices in range, and the write index determined by the read
index and the length. -/
def inv (q : RxQueue) : Prop :=
  q.len_ ≤ 16 ∧ q.in_ < 16 ∧ q.out_ < 16 ∧ q.in_ = (q.out_ + q.len_) % 16

instance (q : RxQueue) : Decidable q.inv := by unfold inv; infer_instance

/-- The retrievable contents, oldest first. -/
def toList (q : RxQueue) : List RxFrame :=
  (List.range q.len_).map fun i => q.buf ((q.out_ + i) % 16)

theorem toList_length (q : RxQueue) : q.toList.length = q.len_ := by
  simp [toList]

end RxQueue

namespace RxQueue

theorem push_eq_not_full (q : RxQueue) (f : RxFrame) (hlen : ¬ 16 < q.len_ + 1) :
    q.push f = { q with buf := Function.update q.buf q.in_ f,
                        in_ := if 16 ≤ q.in_ + 1 then 0 else q.in_ + 1,
                        len_ := q.len_ + 1 } := by
  unfold push
  rw [if_neg hlen]

theorem push_eq_full (q : RxQueue) (f : RxFrame) (hlen : 16 < q.len_ + 1) :
    q.push f = { q with buf := Function.update q.buf q.in_ f,
                        in_ := if 16 ≤ q.in_ + 1 then 0 else q.in_ + 1,
                        len_ := 16,
                        overflow_cnt := if q.overflow_cnt < 0xFFFFFFFF
                          then q.overflow_cnt + 1 else q.overflow_cnt,
                        out_ := if 16 ≤ q.out_ + 1 then 0 else q.out_ + 1 } := by
  unfold push registerOverflow
  rw [if_pos hlen]
  dsimp only
  split_ifs <;> rfl

theorem push_inv (q : RxQueue) (f : RxFrame) (h : q.inv) : (q.push f).inv := by
  obtain ⟨h1, h2, h3, h4⟩ := h
  by_cases hfull : 16 < q.len_ + 1
  · rw [push_eq_full q f hfull]
    unfold inv
    dsimp only
    split_ifs <;> omega
  · rw [push_eq_not_full q f hfull]
    unfold inv
    dsimp only
    split_ifs <;> omega

theorem push_not_full (q : RxQueue) (f : RxFrame) (h : q.inv) (hlen : q.len_ < 16) :
    (q.push f).toList = q.toList ++ [f] ∧
    (q.push f).len_ = q.len_ + 1 ∧
    (q.push f).overflow_cnt = q.overflow_cnt ∧
    (q.push f).out_ = q.out_ := by
  obtain ⟨h1, h2, h3, h4⟩ := h
  rw [push_eq_not_full q f (by omega)]
  refine ⟨?_, rfl, rfl, rfl⟩
  unfold toList
  dsimp only
  rw [List.range_succ, List.map_append, List.map_cons, List.map_nil]
  congr 1
  · apply List.map_congr_left
    intro i hi
    have hilt : i < q.len_ := List.mem_range.mp hi
    rw [Function.update_apply, if_neg (by omega)]
  · rw [Function.update_apply, if_pos (by omega)]

theorem push_full (q : RxQueue) (f : RxFrame) (h : q.inv) (hlen : q.len_ = 16) :
    (q.push f).toList = q.toList.tail ++ [f] ∧
    (q.push f).len_ = 16 ∧
    (q.push f).overflow_cnt =
      (if q.overflow_cnt < 0xFFFFFFFF then q.overflow_cnt + 1 else q.overflow_cnt) := by
  obtain ⟨h1, h2, h3, h4⟩ := h
  rw [push_eq_full q f (by omega)]
  refine ⟨?_, rfl, rfl⟩
  unfold toList
  dsimp only
  have hO : (if 16 ≤ q.out_ + 1 then 0 else q.out_ + 1) = (q.out_ + 1) % 16 := by
    split <;> omega
  have hin : q.in_ = q.out_ := by omega
  rw [hO, hlen]
  conv_lhs => rw [show List.range 16 = List.range 15 ++ [15] from by decide]
  conv_rhs => rw [show List.range 16 = 0 :: List.map Nat.succ (List.range 15) from by decide]
  rw [List.map_append, List.map_cons, List.map_nil, List.map_cons, List.tail_cons,
    List.map_map]
  congr 1
  · apply List.map_congr_left
    intro i hi
    have hilt : i < 15 := List.mem_range.mp hi
    simp only [Function.comp_apply]
    rw [Function.update_apply, if_neg (by omega)]
    congr 1
    omega
  · rw [Function.update_apply, if_pos (by omega)]

theorem pop_spec (q : RxQueue) (h : q.inv) (hlen : 0 < q.len_) :
    ∃ q', q.pop = some (q.buf q.out_, q') ∧ q'.inv ∧
      q.toList = q.buf q.out_ :: q'.toList ∧
      q'.len_ = q.len_ - 1 ∧ q'.overflow_cnt = q.overflow_cnt := by
  obtain ⟨h1, h2, h3, h4⟩ := h
  refine ⟨{ q with out_ := if 16 ≤ q.out_ + 1 then 0 else q.out_ + 1,
                   len_ := q.len_ - 1 }, ?_, ?_, ?_, rfl, rfl⟩
  · unfold pop
    rw [if_pos hlen]
  · unfold inv
    dsimp only
    split_ifs <;> omega
  · unfold toList
    dsimp only
    have hO : (if 16 ≤ q.out_ + 1 then 0 else q.out_ + 1) = (q.out_ + 1) % 16 := by
      split <;> omega
    rw [hO]
    rw [show q.len_ = (q.len_ - 1) + 1 by omega, List.range_succ_eq_map,
      List.map_cons, List.map_map]
    congr 1
    · rw [Nat.add_zero, Nat.mod_eq_of_lt h3]
    · apply List.map_congr_left
      intro i hi
      simp only [Function.comp_apply]
      congr 1
      omega

theorem popN_drain (n : Nat) :
    ∀ q : RxQueue, q.inv → q.len_ = n →
      ∃ q', RxQueue.popN n q = some (q.toList, q') ∧
        q'.len_ = 0 ∧ q'.inv ∧ q'.overflow_cnt = q.overflow_cnt := by
  induction n with
  | zero =>
    intro q h hlen
    refine ⟨q, ?_, hlen, h, rfl⟩
    unfold popN toList
    rw [hlen]
    rfl
  | succ n ih =>
    intro q h hlen
    obtain ⟨q1, hpop, hinv1, htl, hlen1, hcnt1⟩ := pop_spec q h (by omega)
    obtain ⟨q2, hpopN, hlen2, hinv2, hcnt2⟩ := ih q1 hinv1 (by omega)
    refine ⟨q2, ?_, hlen2, hinv2, by rw [hcnt2, hcnt1]⟩
    unfold popN
    rw [hpop, htl]
    dsimp only
    rw [hpopN]

theorem pushList_spec (fs : List RxFrame) :
    ∀ q : RxQueue, q.inv → q.overflow_cnt ≤ 0xFFFFFFFF →
      (q.pushList fs).inv ∧
      (q.pushList fs).len_ = min (q.len_ + fs.length) 16 ∧
      (q.pushList fs).toList = (q.toList ++ fs).drop (q.len_ + fs.length - 16) ∧
      (q.pushList fs).overflow_cnt
        = min (q.overflow_cnt + (q.len_ + fs.length - 16)) 0xFFFFFFFF ∧
      (q.pushList fs).overflow_cnt ≤ 0xFFFFFFFF := by
  induction fs with
  | nil =>
    intro q h hcnt
    have hnil : q.pushList [] = q := rfl
    obtain ⟨h1, h2, h3, h4⟩ := h
    rw [hnil]
    refine ⟨⟨h1, h2, h3, h4⟩, by simp only [List.length_nil]; omega, ?_,
      by simp only [List.length_nil]; omega, hcnt⟩
    simp only [List.length_nil, List.append_nil]
    rw [show q.len_ + 0 - 16 = 0 by omega, List.drop_zero]
  | cons f fs ih =>
    intro q h hcnt
    have hstep : q.pushList (f :: fs) = (q.push f).pushList fs := rfl
    rw [hstep]
    have hq1inv : (q.push f).inv := push_inv q f h
    by_cases hfull : q.len_ = 16
    · obtain ⟨htl, hlen, hcnt1⟩ := push_full q f h hfull
      have hcnt1le : (q.push f).overflow_cnt ≤ 0xFFFFFFFF := by
        rw [hcnt1]; split <;> omega
      obtain ⟨hi, hl, ht, hc, hcle⟩ := ih (q.push f) hq1inv hcnt1le
      have hqtl_len : q.toList.length = 16 := by rw [toList_length]; exact hfull
      refine ⟨hi, ?_, ?_, ?_, hcle⟩
      · rw [hl, hlen]
        simp only [List.length_cons]
        omega
      · rw [ht, htl, hlen]
        cases hq : q.toList with
        | nil => rw [hq] at hqtl_len; simp at hqtl_len
        | cons a t =>
          simp only [List.tail_cons, List.cons_append, List.length_cons]
          rw [show q.len_ + (fs.length + 1) - 16 = (16 + fs.length - 16) + 1 by omega,
            List.drop_succ_cons, List.append_assoc]
          simp only [List.singleton_append]
      · rw [hc, hcnt1, hlen]
        simp only [List.length_cons]
        split <;> omega
    · have hlt : q.len_ < 16 := by
        obtain ⟨h1, -, -, -⟩ := h
        omega
      obtain ⟨htl, hlen, hcnt1, -⟩ := push_not_full q f h hlt
      have hcnt1le : (q.push f).overflow_cnt ≤ 0xFFFFFFFF := by rw [hcnt1]; exact hcnt
      obtain ⟨hi, hl, ht, hc, hcle⟩ := ih (q.push f) hq1inv hcnt1le
      refine ⟨hi, ?_, ?_, ?_, hcle⟩
      · rw [hl, hlen]
        simp only [List.length_cons]
        omega
      · rw [ht, htl, hlen]
        rw [List.append_assoc]
        simp only [List.singleton_append, List.cons_append, List.length_cons]
        congr 1
        omega
      · rw [hc, hcnt1, hlen]
        simp only [List.length_cons]
        omega

end RxQueue

/-- A concrete receive frame used by witnesses. -/
def mkRxFrame (n : Nat) : RxFrame := ⟨⟨n, 0, []⟩, false, false, 0⟩

/-- C4: pushing `16 + k` frames (`k > 0`) into the ring buffer starting from
the reset state never rejects a frame, leaves the overflow counter at `k`
(saturating at `0xFFFFFFFF`, never wrapping past it), and leaves exactly the
16 most recently pushed frames retrievable by successive pops in FIFO order,
after which the queue is empty. -/
theorem rxQueue_overwrite_oldest (q0 : RxQueue) (fs : List RxFrame) (k : Nat)
    (hk : 0 < k) (hlen : fs.length = 16 + k) :
    ((q0.reset).pushList fs).getOverflowCount = min k 0xFFFFFFFF ∧
    (k ≤ 0xFFFFFFFF → ((q0.reset).pushList fs).getOverflowCount = k) ∧
    ((q0.reset).pushList fs).getLength = 16 ∧
    ∃ q', RxQueue.popN 16 ((q0.reset).pushList fs) = some (fs.drop k, q') ∧
      q'.getLength = 0 := by
  have hinv : (q0.reset).inv := by
    unfold RxQueue.reset RxQueue.inv
    simp
  have hcnt0 : (q0.reset).overflow_cnt ≤ 0xFFFFFFFF := Nat.zero_le _
  obtain ⟨hi, hl, ht, hc, -⟩ := RxQueue.pushList_spec fs (q0.reset) hinv hcnt0
  have hreset_len : (q0.reset).len_ = 0 := rfl
  have hreset_toList : (q0.reset).toList = [] := rfl
  rw [hreset_len] at hl ht hc
  have hreset_cnt : (q0.reset).overflow_cnt = 0 := rfl
  rw [hreset_cnt] at hc
  rw [hreset_toList] at ht
  rw [hlen] at hl ht hc
  simp only [List.nil_append, Nat.zero_add] at hl ht hc
  have hlen16 : ((q0.reset).pushList fs).len_ = 16 := by omega
  rw [show 16 + k - 16 = k by omega] at ht hc
  refine ⟨?_, ?_, hlen16, ?_⟩
  · show ((q0.reset).pushList fs).overflow_cnt = min k 0xFFFFFFFF
    omega
  · intro hksmall
    show ((q0.reset).pushList fs).overflow_cnt = k
    omega
  · obtain ⟨q', hpop, hl0, -, -⟩ :=
      RxQueue.popN_drain 16 ((q0.reset).pushList fs) hi hlen16
    exact ⟨q', by rw [hpop, ht], hl0⟩

/-- Witness for C4: seventeen concrete frames pushed into a reset queue. -/
theorem rxQueue_overwrite_oldest_witness :
    (((⟨fun _ => mkRxFrame 0, 3, 5, 7, 9⟩ : RxQueue).reset).pushList
        ((List.range 17).map mkRxFrame)).getOverflowCount = min 1 0xFFFFFFFF ∧
    (1 ≤ 0xFFFFFFFF → (((⟨fun _ => mkRxFrame 0, 3, 5, 7, 9⟩ : RxQueue).reset).pushList
        ((List.range 17).map mkRxFrame)).getOverflowCount = 1) ∧
    (((⟨fun _ => mkRxFrame 0, 3, 5, 7, 9⟩ : RxQueue).reset).pushList
        ((List.range 17).map mkRxFrame)).getLength = 16 ∧
    ∃ q', RxQueue.popN 16 (((⟨fun _ => mkRxFrame 0, 3, 5, 7, 9⟩ : RxQueue).reset).pushList
        ((List.range 17).map mkRxFrame)) = some (((List.range 17).map mkRxFrame).drop 1, q') ∧
      q'.getLength = 0 :=
  rxQueue_overwrite_oldest ⟨fun _ => mkRxFrame 0, 3, 5, 7, 9⟩
    ((List.range 17).map mkRxFrame) 1 (by decide) (by simp)

/-- C9: the ring buffer's structural invariant — length at most 16, both
indices below 16, and write index equal to `(read index + length) mod 16` —
holds after `reset` and is preserved by `push` and by `pop`, and `getLength`
is exactly the number of frames retrievable by successive pops. -/
theorem rxQueue_structural_invariant :
    (∀ q : RxQueue, (q.reset).inv) ∧
    (∀ (q : RxQueue) (f : RxFrame), q.inv → (q.push f).inv) ∧
    (∀ (q : RxQueue) (f : RxFrame) (q' : RxQueue),
      q.inv → q.pop = some (f, q') → q'.inv) ∧
    (∀ q : RxQueue, q.inv →
      ∃ q', RxQueue.popN q.getLength q = some (q.toList, q') ∧
        q.toList.length = q.getLength ∧ q'.pop = none) := by
  refine ⟨?_, ?_, ?_, ?_⟩
  · intro q
    unfold RxQueue.reset RxQueue.inv
    simp
  · exact fun q f h => RxQueue.push_inv q f h
  · intro q f q' h hpop
    unfold RxQueue.pop at hpop
    by_cases hlen : 0 < q.len_
    · rw [if_pos hlen] at hpop
      obtain ⟨h1, h2, h3, h4⟩ := h
      cases hpop
      unfold RxQueue.inv
      dsimp only
      split_ifs <;> omega
    · rw [if_neg hlen] at hpop
      cases hpop
  · intro q h
    obtain ⟨q', hpop, hl0, -, -⟩ := RxQueue.popN_drain q.len_ q h rfl
    refine ⟨q', hpop, RxQueue.toList_length q, ?_⟩
    unfold RxQueue.pop
    rw [if_neg (by omega)]

/-- Witness for C9: popping a concrete one-element queue drains it. -/
theorem rxQueue_structural_invariant_witness :
    ∃ q', RxQueue.popN (⟨fun _ => mkRxFrame 7, 1, 0, 1, 0⟩ : RxQueue).getLength
        ⟨fun _ => mkRxFrame 7, 1, 0, 1, 0⟩
        = some ((⟨fun _ => mkRxFrame 7, 1, 0, 1, 0⟩ : RxQueue).toList, q') ∧
      (⟨fun _ => mkRxFrame 7, 1, 0, 1, 0⟩ : RxQueue).toList.length
        = (⟨fun _ => mkRxFrame 7, 1, 0, 1, 0⟩ : RxQueue).getLength ∧
      q'.pop = none :=
  rxQueue_structural_invariant.2.2.2 ⟨fun _ => mkRxFrame 7, 1, 0, 1, 0⟩ (by decide)

/-! ## Driver state, TX admission, mailbox loading and interrupt handling
(can_bus.cpp lines 103-107, 280-315, 420-505, 507-592) -/

/-- Mirror of `struct TxItem` (can_bus.cpp lines 103-107). -/
structure TxItem where
  frame : Frame
  pending : Bool
deriving DecidableEq, Repr

/-- Mirror of the driver state `struct State` (lines 280-315), with the
three-element array `pending_tx` spelled as three fields and the two
counting-semaphore events modelled by signal counters. -/
structure CanState where
  error_cnt : Nat
  rx_overflow_cnt : Nat
  tx_cnt : Nat
  rx_cnt : Nat
  rx_queue : RxQueue
  rx_event_signals : Nat
  tx_event_signals : Nat
  px0 : TxItem
  px1 : TxItem
  px2 : TxItem
  last_hw_error_code : Nat
  peak_tx_mailbox_index : Nat
  had_activity : Bool
  loopback : Bool

/-- Mirror of `State::pushRxFromISR` (lines 302-314): push into the receive
queue, signal the RX event, and count the frame as bus activity only when it
is neither a loopback echo nor marked failed. -/
def CanState.pushRxFromISR (st : CanState) (rxf : RxFrame) : CanState :=
  let st1 := { st with rx_queue := st.rx_queue.push rxf,
                       rx_event_signals := st.rx_event_signals + 1 }
  if !rxf.loopback && !rxf.failed then
    { st1 with had_activity := true, rx_cnt := st1.rx_cnt + 1 }
  else st1

/-- Mirror of `canAcceptNewTxFrame` (lines 469-505).  The three `TME` bits of
`CAN->TSR` (mailbox `i` currently free) are the parameters `tme0..tme2`. -/
def canAcceptNewTxFrame (tme0 tme1 tme2 : Bool) (st : CanState) (frame : Frame) :
    Bool :=
  if tme0 && tme1 && tme2 then true
  else if !(tme0 || tme1 || tme2) then false
  else if st.px0.pending && !(frame.priorityHigherThan st.px0.frame) then false
  else if st.px1.pending && !(frame.priorityHigherThan st.px1.frame) then false
  else if st.px2.pending && !(frame.priorityHigherThan st.px2.frame) then false
  else true

/-- Outcome of `loadTxMailbox`: `1`, `0`, or `-ErrUnsupportedFrame`. -/
inductive LoadResult where
  | loaded
  | notLoaded
  | rejected
deriving DecidableEq, Repr

/-- Mirror of `loadTxMailbox` (lines 507-592).  The hardware mailbox
register writes are abstracted away; the recorded driver state (the
`pending_tx` slot and the peak-mailbox statistic) is kept. -/
def loadTxMailbox (tme0 tme1 tme2 : Bool) (st : CanState) (frame : Frame) :
    LoadResult × CanState :=
  if frame.isErrorFrame || decide (8 < frame.dlc) then (.rejected, st)
  else if tme0 then
    (.loaded, { st with px0 := ⟨frame, true⟩,
                        peak_tx_mailbox_index := max st.peak_tx_mailbox_index 0 })
  else if tme1 then
    (.loaded, { st with px1 := ⟨frame, true⟩,
                        peak_tx_mailbox_index := max st.peak_tx_mailbox_index 1 })
  else if tme2 then
    (.loaded, { st with px2 := ⟨frame, true⟩,
                        peak_tx_mailbox_index := max st.peak_tx_mailbox_index 2 })
  else (.notLoaded, st)

/-- Mirror of `handleStatusChangeInterrupt` (lines 420-467).  Hardware
effects are rendered as data: `busOff` is the `CAN->ESR & CAN_ESR_BOFF` test,
`lec` the latched error code `(CAN->ESR & CAN_ESR_LEC) >> 4`, and the
returned flag records whether the three `ABRQ` abort requests were written.
The mailbox loop walks slots 0, 1, 2 in order exactly as the `for` loop. -/
def handleStatusChangeInterrupt (busOff : Bool) (lec : Nat) (ts : Nat)
    (st : CanState) : CanState × Bool :=
  let step := fun (pending : Bool) (frame : Frame) (clear : CanState → CanState)
      (s : CanState) =>
    if pending then
      let s1 := clear s
      if s1.loopback then s1.pushRxFromISR ⟨frame, true, true, ts⟩ else s1
    else s
  let afterBusOff :=
    if busOff then
      let s0 := { st with tx_event_signals := st.tx_event_signals + 1 }
      let s1 := step st.px0.pending st.px0.frame
        (fun s => { s with px0 := { s.px0 with pending := false } }) s0
      let s2 := step st.px1.pending st.px1.frame
        (fun s => { s with px1 := { s.px1 with pending := false } }) s1
      let s3 := step st.px2.pending st.px2.frame
        (fun s => { s with px2 := { s.px2 with pending := false } }) s2
      (s3, true)
    else (st, false)
  let s := afterBusOff.1
  if lec ≠ 0 then
    ({ s with last_hw_error_code := lec, error_cnt := s.error_cnt + 1 },
      afterBusOff.2)
  else (s, afterBusOff.2)

/-- The loopback failure frames the bus-off path synthesizes, in mailbox
order, one per pending slot, when loopback mode is enabled. -/
def busOffLoopbackFrames (ts : Nat) (st : CanState) : List RxFrame :=
  if st.loopback then
    (List.filter (fun tx => tx.pending) [st.px0, st.px1, st.px2]).map
      (fun tx => ⟨tx.frame, true, true, ts⟩)
  else []

/-- C10: `State::pushRxFromISR` always enqueues the frame and signals the RX
event, but bumps the receive counter and the activity flag exactly when the
frame is neither a loopback echo nor marked failed; all other driver
statistics are untouched. -/
theorem pushRxFromISR_spec (st : CanState) (rxf : RxFrame) :
    (st.pushRxFromISR rxf).rx_queue = st.rx_queue.push rxf ∧
    (st.pushRxFromISR rxf).rx_event_signals = st.rx_event_signals + 1 ∧
    (rxf.loopback = false ∧ rxf.failed = false →
      (st.pushRxFromISR rxf).rx_cnt = st.rx_cnt + 1 ∧
      (st.pushRxFromISR rxf).had_activity = true) ∧
    (rxf.loopback = true ∨ rxf.failed = true →
      (st.pushRxFromISR rxf).rx_cnt = st.rx_cnt ∧
      (st.pushRxFromISR rxf).had_activity = st.had_activity) ∧
    (st.pushRxFromISR rxf).tx_cnt = st.tx_cnt ∧
    (st.pushRxFromISR rxf).error_cnt = st.error_cnt ∧
    (st.pushRxFromISR rxf).rx_overflow_cnt = st.rx_overflow_cnt ∧
    (st.pushRxFromISR rxf).px0 = st.px0 ∧
    (st.pushRxFromISR rxf).px1 = st.px1 ∧
    (st.pushRxFromISR rxf).px2 = st.px2 := by
  unfold CanState.pushRxFromISR
  cases hlb : rxf.loopback <;> cases hf : rxf.failed <;> simp

/-- Witness for C10 at a concrete state and loopback frame. -/
theorem pushRxFromISR_spec_witness :
    ((⟨0, 0, 0, 0, ⟨fun _ => mkRxFrame 0, 0, 0, 0, 0⟩, 0, 0,
        ⟨⟨0, 0, []⟩, false⟩, ⟨⟨0, 0, []⟩, false⟩, ⟨⟨0, 0, []⟩, false⟩,
        0, 0, false, true⟩ : CanState).pushRxFromISR
          ⟨⟨1, 0, []⟩, true, false, 5⟩).rx_cnt
      = (⟨0, 0, 0, 0, ⟨fun _ => mkRxFrame 0, 0, 0, 0, 0⟩, 0, 0,
        ⟨⟨0, 0, []⟩, false⟩, ⟨⟨0, 0, []⟩, false⟩, ⟨⟨0, 0, []⟩, false⟩,
        0, 0, false, true⟩ : CanState).rx_cnt :=
  ((pushRxFromISR_spec _ _).2.2.2.1 (Or.inl rfl)).1

/-- C5: `canAcceptNewTxFrame` accepts when all three mailboxes are free,
refuses when all three are busy, and in the mixed state refuses exactly when
some pending slot holds a frame the candidate does not strictly
out-prioritize. -/
theorem canAcceptNewTxFrame_spec (tme0 tme1 tme2 : Bool) (st : CanState)
    (frame : Frame) :
    (tme0 = true → tme1 = true → tme2 = true →
      canAcceptNewTxFrame tme0 tme1 tme2 st frame = true) ∧
    (tme0 = false → tme1 = false → tme2 = false →
      canAcceptNewTxFrame tme0 tme1 tme2 st frame = false) ∧
    (¬(tme0 = true ∧ tme1 = true ∧ tme2 = true) →
     ¬(tme0 = false ∧ tme1 = false ∧ tme2 = false) →
      (canAcceptNewTxFrame tme0 tme1 tme2 st frame = false ↔
        ((st.px0.pending = true ∧ frame.priorityHigherThan st.px0.frame = false) ∨
         (st.px1.pending = true ∧ frame.priorityHigherThan st.px1.frame = false) ∨
         (st.px2.pending = true ∧ frame.priorityHigherThan st.px2.frame = false)))) := by
  unfold canAcceptNewTxFrame
  cases tme0 <;> cases tme1 <;> cases tme2 <;>
    simp <;>
      cases h0 : st.px0.pending <;>
        cases h1 : st.px1.pending <;>
          cases h2 : st.px2.pending <;>
            cases hp0 : frame.priorityHigherThan st.px0.frame <;>
              cases hp1 : frame.priorityHigherThan st.px1.frame <;>
                cases hp2 : frame.priorityHigherThan st.px2.frame <;>
                  simp

/-- Witness for C5: the spec's scenario — pending priorities high/medium/low
(standard ids 1, 5, 9) in a mixed mailbox state and a candidate (id 7)
between low and medium is refused. -/
theorem canAcceptNewTxFrame_spec_witness :
    canAcceptNewTxFrame true false false
        ⟨0, 0, 0, 0, ⟨fun _ => mkRxFrame 0, 0, 0, 0, 0⟩, 0, 0,
          ⟨⟨1, 0, []⟩, true⟩, ⟨⟨5, 0, []⟩, true⟩, ⟨⟨9, 0, []⟩, true⟩,
          0, 0, false, false⟩ ⟨7, 0, []⟩ = false ↔
      (((⟨⟨1, 0, []⟩, true⟩ : TxItem).pending = true ∧
          (⟨7, 0, []⟩ : Frame).priorityHigherThan ⟨1, 0, []⟩ = false) ∨
       ((⟨⟨5, 0, []⟩, true⟩ : TxItem).pending = true ∧
          (⟨7, 0, []⟩ : Frame).priorityHigherThan ⟨5, 0, []⟩ = false) ∨
       ((⟨⟨9, 0, []⟩, true⟩ : TxItem).pending = true ∧
          (⟨7, 0, []⟩ : Frame).priorityHigherThan ⟨9, 0, []⟩ = false)) :=
  (canAcceptNewTxFrame_spec true false false
      ⟨0, 0, 0, 0, ⟨fun _ => mkRxFrame 0, 0, 0, 0, 0⟩, 0, 0,
        ⟨⟨1, 0, []⟩, true⟩, ⟨⟨5, 0, []⟩, true⟩, ⟨⟨9, 0, []⟩, true⟩,
        0, 0, false, false⟩ ⟨7, 0, []⟩).2.2
    (by decide) (by decide)

/-- C6: `loadTxMailbox` returns the distinct rejected outcome exactly for
error-frame markers or frames with DLC above 8, changing no state; otherwise
it takes the first free mailbox in the fixed order 0, 1, 2, recording the
frame, setting the slot pending and updating the peak-mailbox statistic, and
returns the not-loaded outcome, with no state change, when none is free. -/
theorem loadTxMailbox_spec (tme0 tme1 tme2 : Bool) (st : CanState)
    (frame : Frame) :
    ((loadTxMailbox tme0 tme1 tme2 st frame).1 = LoadResult.rejected ↔
      (frame.isErrorFrame = true ∨ 8 < frame.dlc)) ∧
    ((loadTxMailbox tme0 tme1 tme2 st frame).1 = LoadResult.rejected →
      (loadTxMailbox tme0 tme1 tme2 st frame).2 = st) ∧
    (¬(frame.isErrorFrame = true ∨ 8 < frame.dlc) →
      (tme0 = true →
        loadTxMailbox tme0 tme1 tme2 st frame =
          (LoadResult.loaded,
            { st with
                px0 := ⟨frame, true⟩
                peak_tx_mailbox_index := max st.peak_tx_mailbox_index 0 })) ∧
      (tme0 = false → tme1 = true →
        loadTxMailbox tme0 tme1 tme2 st frame =
          (LoadResult.loaded,
            { st with
                px1 := ⟨frame, true⟩
                peak_tx_mailbox_index := max st.peak_tx_mailbox_index 1 })) ∧
      (tme0 = false → tme1 = false → tme2 = true →
        loadTxMailbox tme0 tme1 tme2 st frame =
          (LoadResult.loaded,
            { st with
                px2 := ⟨frame, true⟩
                peak_tx_mailbox_index := max st.peak_tx_mailbox_index 2 })) ∧
      (tme0 = false → tme1 = false → tme2 = false →
        loadTxMailbox tme0 tme1 tme2 st frame = (LoadResult.notLoaded, st))) := by
  unfold loadTxMailbox
  cases hE : frame.isErrorFrame <;> by_cases hD : 8 < frame.dlc <;>
    cases tme0 <;> cases tme1 <;> cases tme2 <;> simp [hE, hD]

/-- Witness for C6: an RTR-flagged frame with DLC 9 is rejected with the
state unchanged. -/
theorem loadTxMailbox_spec_witness :
    (loadTxMailbox true true true
        ⟨0, 0, 0, 0, ⟨fun _ => mkRxFrame 0, 0, 0, 0, 0⟩, 0, 0,
          ⟨⟨0, 0, []⟩, false⟩, ⟨⟨0, 0, []⟩, false⟩, ⟨⟨0, 0, []⟩, false⟩,
          0, 0, false, false⟩ ⟨3, 9, []⟩).2
      = ⟨0, 0, 0, 0, ⟨fun _ => mkRxFrame 0, 0, 0, 0, 0⟩, 0, 0,
          ⟨⟨0, 0, []⟩, false⟩, ⟨⟨0, 0, []⟩, false⟩, ⟨⟨0, 0, []⟩, false⟩,
          0, 0, false, false⟩ :=
  (loadTxMailbox_spec true true true _ ⟨3, 9, []⟩).2.1
    ((loadTxMailbox_spec true true true _ ⟨3, 9, []⟩).1.mpr (Or.inr (by decide)))

/-- C7: on a status-change interrupt with the bus-off condition latched, the
handler aborts the hardware transmission requests, signals the TX-free
event, clears every pending flag, pushes a loopback failure frame per
previously pending mailbox exactly when loopback mode is on, and records the
latched error code with an error-count increment exactly when it is
non-zero. -/
theorem handleStatusChange_busOff_spec (lec ts : Nat) (st : CanState) :
    (handleStatusChangeInterrupt true lec ts st).2 = true ∧
    (handleStatusChangeInterrupt true lec ts st).1.px0.pending = false ∧
    (handleStatusChangeInterrupt true lec ts st).1.px1.pending = false ∧
    (handleStatusChangeInterrupt true lec ts st).1.px2.pending = false ∧
    (handleStatusChangeInterrupt true lec ts st).1.tx_event_signals
      = st.tx_event_signals + 1 ∧
    (handleStatusChangeInterrupt true lec ts st).1.rx_queue
      = st.rx_queue.pushList (busOffLoopbackFrames ts st) ∧
    (st.loopback = false →
      (handleStatusChangeInterrupt true lec ts st).1.rx_queue = st.rx_queue) ∧
    (lec ≠ 0 →
      (handleStatusChangeInterrupt true lec ts st).1.last_hw_error_code = lec ∧
      (handleStatusChangeInterrupt true lec ts st).1.error_cnt = st.error_cnt + 1) ∧
    (lec = 0 →
      (handleStatusChangeInterrupt true lec ts st).1.last_hw_error_code
        = st.last_hw_error_code ∧
      (handleStatusChangeInterrupt true lec ts st).1.error_cnt = st.error_cnt) := by
  by_cases hlec : lec = 0 <;>
    cases hlb : st.loopback <;>
      cases p0 : st.px0.pending <;>
        cases p1 : st.px1.pending <;>
          cases p2 : st.px2.pending <;>
            simp [handleStatusChangeInterrupt, busOffLoopbackFrames,
              CanState.pushRxFromISR, RxQueue.pushList, hlec, hlb, p0, p1, p2]

/-- Witness for C7's error-code clauses at a concrete state. -/
theorem handleStatusChange_busOff_spec_witness :
    (handleStatusChangeInterrupt true 5 0
        ⟨0, 0, 0, 0, ⟨fun _ => mkRxFrame 0, 0, 0, 0, 0⟩, 0, 0,
          ⟨⟨0, 0, []⟩, false⟩, ⟨⟨0, 0, []⟩, false⟩, ⟨⟨0, 0, []⟩, false⟩,
          0, 0, false, false⟩).1.last_hw_error_code = 5 ∧
    (handleStatusChangeInterrupt true 5 0
        ⟨0, 0, 0, 0, ⟨fun _ => mkRxFrame 0, 0, 0, 0, 0⟩, 0, 0,
          ⟨⟨0, 0, []⟩, false⟩, ⟨⟨0, 0, []⟩, false⟩, ⟨⟨0, 0, []⟩, false⟩,
          0, 0, false, false⟩).1.error_cnt
      = (⟨0, 0, 0, 0, ⟨fun _ => mkRxFrame 0, 0, 0, 0, 0⟩, 0, 0,
          ⟨⟨0, 0, []⟩, false⟩, ⟨⟨0, 0, []⟩, false⟩, ⟨⟨0, 0, []⟩, false⟩,
          0, 0, false, false⟩ : CanState).error_cnt + 1 :=
  (handleStatusChange_busOff_spec 5 0 _).2.2.2.2.2.2.2.1 (by decide)

/-! ## Blocking send/receive loops (can_bus.cpp lines 744-796) -/

/-- Mirror of the `receive` loop (lines 769-796).  Modelled from the spec
for the external RTOS services: `ms2st` is the `MS2ST` millisecond-to-tick
conversion, `e i` the value of `chVTTimeElapsedSinceX(started_at)` observed
at loop iteration `i`, and `qs i` the receive queue contents seen at
iteration `i` (it changes only while the loop blocks in
`rx_event.waitForSysTicks`).  The result pairs the C return code with the
list of tick budgets passed to the blocking wait, one per iteration that
blocked; `none` models a non-terminating run longer than `fuel`. -/
def receiveLoop (ms2st : Nat → Nat) (timeout : Nat) (e : Nat → Nat)
    (qs : Nat → RxQueue) : Nat → Nat → Option (Int × List Nat)
  | _, 0 => none
  | i, fuel + 1 =>
    if 0 < (qs i).getLength then some (1, [])
    else if ms2st timeout ≤ e i then some (0, [])
    else
      match receiveLoop ms2st timeout e qs (i + 1) fuel with
      | some (r, ws) => some (r, (ms2st timeout - e i) :: ws)
      | none => none

/-- Mirror of the `send` loop (lines 744-767), modelled like `receiveLoop`:
`acc i` is the `canAcceptNewTxFrame` verdict and `loadRes i` the
`loadTxMailbox` return code observed at iteration `i`. -/
def sendLoop (ms2st : Nat → Nat) (timeout : Nat) (e : Nat → Nat)
    (acc : Nat → Bool) (loadRes : Nat → Int) : Nat → Nat → Option (Int × List Nat)
  | _, 0 => none
  | i, fuel + 1 =>
    if acc i then some (loadRes i, [])
    else if ms2st timeout ≤ e i then some (0, [])
    else
      match sendLoop ms2st timeout e acc loadRes (i + 1) fuel with
      | some (r, ws) => some (r, (ms2st timeout - e i) :: ws)
      | none => none

theorem receiveLoop_sound (ms2st : Nat → Nat) (timeout : Nat) (e : Nat → Nat)
    (qs : Nat → RxQueue) :
    ∀ fuel i r ws, receiveLoop ms2st timeout e qs i fuel = some (r, ws) →
      (r = 0 ∨ r = 1) ∧
      (r = 0 ↔ (qs (i + ws.length)).getLength = 0 ∧
        ms2st timeout ≤ e (i + ws.length)) ∧
      (∀ j, j < ws.length → ws[j]? = some (ms2st timeout - e (i + j))) := by
  intro fuel
  induction fuel with
  | zero => intro i r ws h; cases h
  | succ fuel ih =>
    intro i r ws h
    unfold receiveLoop at h
    by_cases hq : 0 < (qs i).getLength
    · rw [if_pos hq] at h
      cases h
      refine ⟨Or.inr rfl, ?_, ?_⟩
      · rw [List.length_nil, Nat.add_zero]
        constructor
        · intro h0
          exact absurd h0 (by omega)
        · intro hx
          exact absurd hx.1 (by omega)
      · intro j hj
        rw [List.length_nil] at hj
        exact absurd hj (by omega)
    · rw [if_neg hq] at h
      by_cases ht : ms2st timeout ≤ e i
      · rw [if_pos ht] at h
        cases h
        refine ⟨Or.inl rfl, ?_, ?_⟩
        · rw [List.length_nil, Nat.add_zero]
          constructor
          · intro _
            exact ⟨by omega, ht⟩
          · intro _
            rfl
        · intro j hj
          rw [List.length_nil] at hj
          exact absurd hj (by omega)
      · rw [if_neg ht] at h
        cases hrec : receiveLoop ms2st timeout e qs (i + 1) fuel with
        | none => simp [hrec] at h
        | some pair =>
          obtain ⟨r', ws'⟩ := pair
          rw [hrec] at h
          simp only [Option.some.injEq, Prod.mk.injEq] at h
          obtain ⟨hr, hws⟩ := h
          obtain ⟨ha, hb, hcw⟩ := ih (i + 1) r' ws' hrec
          subst hr
          subst hws
          have hshift : i + (((ms2st timeout - e i) :: ws').length)
              = (i + 1) + ws'.length := by
            rw [List.length_cons]
            omega
          refine ⟨ha, ?_, ?_⟩
          · rw [hshift]
            exact hb
          · intro j hj
            cases j with
            | zero =>
              rw [Nat.add_zero]
              exact List.getElem?_cons_zero
            | succ j =>
              rw [List.length_cons] at hj
              have hmain := hcw j (by omega)
              rw [List.getElem?_cons_succ, show i + (j + 1) = i + 1 + j by omega]
              exact hmain

theorem sendLoop_sound (ms2st : Nat → Nat) (timeout : Nat) (e : Nat → Nat)
    (acc : Nat → Bool) (loadRes : Nat → Int) :
    ∀ fuel i r ws, sendLoop ms2st timeout e acc loadRes i fuel = some (r, ws) →
      (acc (i + ws.length) = true → r = loadRes (i + ws.length)) ∧
      (acc (i + ws.length) = false → r = 0 ∧ ms2st timeout ≤ e (i + ws.length)) ∧
      (∀ j, j < ws.length → ws[j]? = some (ms2st timeout - e (i + j))) := by
  intro fuel
  induction fuel with
  | zero => intro i r ws h; cases h
  | succ fuel ih =>
    intro i r ws h
    unfold sendLoop at h
    by_cases hacc : acc i = true
    · rw [if_pos hacc] at h
      cases h
      refine ⟨?_, ?_, ?_⟩
      · intro _
        rw [List.length_nil, Nat.add_zero]
      · intro hfalse
        rw [List.length_nil, Nat.add_zero, hacc] at hfalse
        cases hfalse
      · intro j hj
        rw [List.length_nil] at hj
        exact absurd hj (by omega)
    · rw [if_neg (by simpa using hacc)] at h
      by_cases ht : ms2st timeout ≤ e i
      · rw [if_pos ht] at h
        cases h
        refine ⟨?_, ?_, ?_⟩
        · intro htrue
          rw [List.length_nil, Nat.add_zero] at htrue
          exact absurd htrue hacc
        · intro _
          rw [List.length_nil, Nat.add_zero]
          exact ⟨rfl, ht⟩
        · intro j hj
          rw [List.length_nil] at hj
          exact absurd hj (by omega)
      · rw [if_neg ht] at h
        cases hrec : sendLoop ms2st timeout e acc loadRes (i + 1) fuel with
        | none => simp [hrec] at h
        | some pair =>
          obtain ⟨r', ws'⟩ := pair
          rw [hrec] at h
          simp only [Option.some.injEq, Prod.mk.injEq] at h
          obtain ⟨hr, hws⟩ := h
          obtain ⟨ha, hb, hcw⟩ := ih (i + 1) r' ws' hrec
          subst hr
          subst hws
          have hshift : i + (((ms2st timeout - e i) :: ws').length)
              = (i + 1) + ws'.length := by
            rw [List.length_cons]
            omega
          refine ⟨?_, ?_, ?_⟩
          · rw [hshift]
            exact ha
          · rw [hshift]
            exact hb
          · intro j hj
            cases j with
            | zero =>
              rw [Nat.add_zero]
              exact List.getElem?_cons_zero
            | succ j =>
              rw [List.length_cons] at hj
              have hmain := hcw j (by omega)
              rw [List.getElem?_cons_succ, show i + (j + 1) = i + 1 + j by omega]
              exact hmain

/-- C8: with a zero-tick conversion of a zero-millisecond timeout, `receive`
on an empty queue returns the timeout outcome `0` on its very first
iteration, performing no blocking wait; in general, a `receive` run returns
only `0` (timeout: empty queue with the elapsed time at or past the
converted budget at the returning iteration) or `1`, a `send` run whose
final iteration is refused admission returns `0` with the budget exhausted,
and every blocking wait of either loop is passed the recomputed remaining
budget, the requested timeout minus the elapsed time at that iteration. -/
theorem receive_send_timeout_semantics :
    (∀ (ms2st : Nat → Nat) (e : Nat → Nat) (qs : Nat → RxQueue) (fuel : Nat),
      ms2st 0 = 0 → 0 < fuel → (qs 0).getLength = 0 →
      receiveLoop ms2st 0 e qs 0 fuel = some (0, [])) ∧
    (∀ (ms2st : Nat → Nat) (timeout : Nat) (e : Nat → Nat) (qs : Nat → RxQueue)
        (fuel i : Nat) (r : Int) (ws : List Nat),
      receiveLoop ms2st timeout e qs i fuel = some (r, ws) →
        (r = 0 ∨ r = 1) ∧
        (r = 0 ↔ (qs (i + ws.length)).getLength = 0 ∧
          ms2st timeout ≤ e (i + ws.length)) ∧
        (∀ j, j < ws.length → ws[j]? = some (ms2st timeout - e (i + j)))) ∧
    (∀ (ms2st : Nat → Nat) (timeout : Nat) (e : Nat → Nat) (acc : Nat → Bool)
        (loadRes : Nat → Int) (fuel i : Nat) (r : Int) (ws : List Nat),
      sendLoop ms2st timeout e acc loadRes i fuel = some (r, ws) →
        (acc (i + ws.length) = false →
          r = 0 ∧ ms2st timeout ≤ e (i + ws.length)) ∧
        (∀ j, j < ws.length → ws[j]? = some (ms2st timeout - e (i + j)))) := by
  refine ⟨?_, ?_, ?_⟩
  · intro ms2st e qs fuel hms hfuel hempty
    cases fuel with
    | zero => omega
    | succ fuel =>
      unfold receiveLoop
      rw [if_neg (by omega), if_pos (by rw [hms]; exact Nat.zero_le _)]
  · intro ms2st timeout e qs fuel i r ws h
    exact receiveLoop_sound ms2st timeout e qs fuel i r ws h
  · intro ms2st timeout e acc loadRes fuel i r ws h
    obtain ⟨-, hb, hc⟩ := sendLoop_sound ms2st timeout e acc loadRes fuel i r ws h
    exact ⟨hb, hc⟩

/-- Witness for C8: a concrete zero-timeout receive on an empty queue. -/
theorem receive_send_timeout_semantics_witness :
    receiveLoop (fun n => n) 0 (fun _ => 0)
      (fun _ => ⟨fun _ => mkRxFrame 0, 0, 0, 0, 0⟩) 0 1 = some (0, []) :=
  receive_send_timeout_semantics.1 (fun n => n) (fun _ => 0)
    (fun _ => ⟨fun _ => mkRxFrame 0, 0, 0, 0, 0⟩) 1 rfl (by omega) rfl

end CanBus
